import Mathlib

/-!
Shallow embedding of the process/application tracking engine of the
resources monitor (src/src/utils/app.rs), together with proofs about its
reconciliation algorithm.

Hash maps are modelled as association lists (key-value lists); hash sets as
lists of keys.  Rust's HashMap::insert is modelled by update-in-place when
the key is present, append otherwise; iteration order of the model list
plays the role of the (unspecified) iteration order of the hash map.
Floating point CPU ratios are modelled over the rationals.
-/

namespace Resources

/-- Lookup in a key-value list: the value of the first pair whose key
matches, mirroring access into a Rust HashMap. -/
def alookup {κ ν : Type} [DecidableEq κ] : List (κ × ν) → κ → Option ν
  | [], _ => none
  | kv :: rest, key => if kv.1 = key then some kv.2 else alookup rest key

/-- HashMap::insert on the association-list model: replace the value in
place when the key is present, append the new pair otherwise. -/
def aInsert {κ ν : Type} [DecidableEq κ] (l : List (κ × ν)) (key : κ) (v : ν) :
    List (κ × ν) :=
  match alookup l key with
  | some _ => l.map (fun kv => if kv.1 = key then (key, v) else kv)
  | none => l ++ [(key, v)]

/-- HashSet::insert on the list model. -/
def sInsert (s : List Int) (x : Int) : List Int :=
  if x ∈ s then s else x :: s

/-- u64::checked_div: none when the divisor is zero. -/
def checkedDiv (a b : Nat) : Option Nat :=
  if b = 0 then none else some (a / b)

/-- Rust str::starts_with, modelled over the character lists of the two
strings. -/
def strStartsWith (s pre : String) : Bool :=
  pre.toList.isPrefixOf s.toList

/-- Containerization classification of a process (none, Flatpak, or other
sandbox), from utils/processes.rs via its uses in app.rs. -/
inductive Containerization where
  | none
  | flatpak
  | other
deriving DecidableEq

/-- Modelled from the spec: ProcessAction of utils/processes.rs (not under
src/), the four signal-based lifecycle actions named at its call sites. -/
inductive ProcessAction where
  | TERM
  | KILL
  | STOP
  | CONT
deriving DecidableEq

/-- Modelled from the spec: the ActionError taxonomy of section 7
(utils/processes.rs is not under src/). -/
inductive ActionError where
  | NotPermitted
  | NotFound
  | Other (code : Int)
deriving DecidableEq

/-- Modelled from the spec: ProcessData of utils/processes.rs (not under
src/), one immutable per-sample record, fields as listed in section 3 and
as read by app.rs. -/
structure ProcessData where
  pid : Int
  comm : String
  commandline : String
  memory_usage : Nat
  cpu_time : Nat
  cpu_time_timestamp : Nat
  cgroup : Option String
  containerization : Containerization
  uid : Nat
deriving DecidableEq

/-- Modelled from the spec: Process of utils/processes.rs (not under src/):
current ProcessData, the previous cycle's CPU sample, a liveness flag and a
cached icon (icons are modelled by their name strings). -/
structure Process where
  data : ProcessData
  cpu_time_before : Nat
  cpu_time_before_timestamp : Nat
  alive : Bool
  icon : String
deriving DecidableEq

/-- Modelled from the spec: Process::cpu_time_ratio of utils/processes.rs
(not under src/), section 4.2: the CPU-time delta over the timestamp delta,
clamped to the unit interval, and 0 when the timestamp delta is zero. -/
def Process.cpu_time_ratio (p : Process) : ℚ :=
  if p.data.cpu_time_timestamp = p.cpu_time_before_timestamp then 0
  else
    max 0 (min 1 (((p.data.cpu_time : ℚ) - (p.cpu_time_before : ℚ)) /
      ((p.data.cpu_time_timestamp : ℚ) - (p.cpu_time_before_timestamp : ℚ))))

/-- Modelled from the spec: Process::execute_process_action of
utils/processes.rs (not under src/) sends one OS signal to the process's
pid; the OS outcome is abstracted as an oracle from pid and action to a
per-invocation result. -/
def Process.execute_process_action (p : Process)
    (os : Int → ProcessAction → Except ActionError Unit) (action : ProcessAction) :
    Except ActionError Unit :=
  os p.data.pid action

/-- Modelled from the spec: command-line sanitization of section 4.1
(utils/processes.rs is not under src/): the OS's raw null separators are
turned into spaces, producing a single display string. -/
def Process.sanitize_cmdline (cmdline : String) : String :=
  cmdline.map (fun c => if c = Char.ofNat 0 then ' ' else c)

/-- App from app.rs: an installed application and the pids it currently
believes belong to it. -/
structure App where
  processes : List Int
  display_name : String
  description : Option String
  icon : String
  id : String
deriving DecidableEq

/-- AppsContext from app.rs: the aggregation root. -/
structure AppsContext where
  apps : List (String × App)
  processes : List (Int × Process)
  processes_assigned_to_apps : List Int
deriving DecidableEq

/-- AppItem from app.rs. -/
structure AppItem where
  id : Option String
  display_name : String
  icon : String
  description : Option String
  memory_usage : Nat
  cpu_time_ratio : ℚ
  processes_amount : Nat
  containerization : Containerization
deriving DecidableEq

/-- ProcessItem from utils/processes.rs as populated by
AppsContext::process_item. -/
structure ProcessItem where
  pid : Int
  display_name : String
  icon : String
  memory_usage : Nat
  cpu_time_ratio : ℚ
  commandline : String
  containerization : Containerization
  cgroup : Option String
  uid : Nat
deriving DecidableEq

def AppsContext.get_process (ctx : AppsContext) (pid : Int) : Option Process :=
  alookup ctx.processes pid

def AppsContext.get_app (ctx : AppsContext) (id : String) : Option App :=
  alookup ctx.apps id

/-- AppsContext::all_processes: the living processes of the table. -/
def AppsContext.all_processes (ctx : AppsContext) : List Process :=
  (ctx.processes.map Prod.snd).filter (fun p => p.alive)

/-- App::processes_iter: the living processes of the table whose pid is in
this app's membership list. -/
def App.processes_iter (app : App) (ctx : AppsContext) : List Process :=
  (ctx.all_processes).filter (fun p => app.processes.contains p.data.pid && p.alive)

/-- App::is_running: at least one member pid resolves to a living process. -/
def App.is_running (app : App) (ctx : AppsContext) : Bool :=
  decide (0 < (app.processes_iter ctx).length)

/-- App::add_process: the process inherits the app's icon and its pid is
appended to the membership list. -/
def App.add_process (app : App) (process : Process) : App × Process :=
  ({ app with processes := app.processes ++ [process.data.pid] },
   { process with icon := app.icon })

def App.memory_usage (app : App) (ctx : AppsContext) : Nat :=
  ((app.processes_iter ctx).map (fun p => p.data.memory_usage)).sum

def App.cpu_time (app : App) (ctx : AppsContext) : Nat :=
  ((app.processes_iter ctx).map (fun p => p.data.cpu_time)).sum

def App.cpu_time_timestamp (app : App) (ctx : AppsContext) : Nat :=
  (checkedDiv ((app.processes_iter ctx).map (fun p => p.data.cpu_time_timestamp)).sum
    app.processes.length).getD 0

def App.cpu_time_before (app : App) (ctx : AppsContext) : Nat :=
  ((app.processes_iter ctx).map (fun p => p.cpu_time_before)).sum

def App.cpu_time_before_timestamp (app : App) (ctx : AppsContext) : Nat :=
  (checkedDiv ((app.processes_iter ctx).map (fun p => p.cpu_time_before_timestamp)).sum
    app.processes.length).getD 0

/-- App::cpu_time_ratio: the sum of the member ratios clamped to the unit
interval. -/
def App.cpu_time_ratio (app : App) (ctx : AppsContext) : ℚ :=
  max 0 (min 1 (((app.processes_iter ctx).map Process.cpu_time_ratio).sum))

/-- App::execute_process_action: fan the action out to every live member,
collecting one result per member. -/
def App.execute_process_action (app : App) (ctx : AppsContext)
    (os : Int → ProcessAction → Except ActionError Unit) (action : ProcessAction) :
    List (Except ActionError Unit) :=
  (app.processes_iter ctx).map (fun p => p.execute_process_action os action)

def AppsContext.process_item (ctx : AppsContext) (pid : Int) : Option ProcessItem :=
  (ctx.get_process pid).map (fun process =>
    { pid := process.data.pid
      display_name := process.data.comm
      icon := process.icon
      memory_usage := process.data.memory_usage
      cpu_time_ratio := process.cpu_time_ratio
      commandline := Process.sanitize_cmdline process.data.commandline
      containerization := process.data.containerization
      cgroup := process.data.cgroup
      uid := process.data.uid })

/-- AppsContext::process_items: living processes with a non-empty command
line, keyed by pid.  The source unwraps process_item, which cannot fail
there because the filtered process came from the table; failure of that
impossible lookup is modelled by dropping the entry. -/
def AppsContext.process_items (ctx : AppsContext) : List (Int × ProcessItem) :=
  ((ctx.all_processes).filter (fun p => !p.data.commandline.isEmpty)).filterMap
    (fun p => (ctx.process_item p.data.pid).map (fun item => (p.data.pid, item)))

/-- The apps included by the filter at the top of AppsContext::app_items:
running and not an xdg-desktop-portal entry. -/
def AppsContext.running_apps (ctx : AppsContext) : List (String × App) :=
  ctx.apps.filter
    (fun kv => kv.2.is_running ctx && !(strStartsWith kv.2.id "xdg-desktop-portal"))

/-- The app_pids set accumulated while AppsContext::app_items builds its
per-app entries: the pids of the living members of every included app. -/
def AppsContext.app_pids (ctx : AppsContext) : List Int :=
  ((ctx.running_apps).map (fun kv => (kv.2.processes_iter ctx).map
    (fun p => p.data.pid))).flatten

/-- The AppItem that AppsContext::app_items builds for one included app. -/
def AppsContext.app_entry (ctx : AppsContext) (app : App) : AppItem :=
  { id := some app.id
    display_name := app.display_name
    icon := app.icon
    description := app.description
    memory_usage := app.memory_usage ctx
    cpu_time_ratio := app.cpu_time_ratio ctx
    processes_amount := (app.processes_iter ctx).length
    containerization :=
      if ((app.processes_iter ctx).filter (fun p =>
            !(strStartsWith p.data.commandline "bwrap") && !p.data.commandline.isEmpty)).any
          (fun p => p.data.containerization == Containerization.flatpak)
      then Containerization.flatpak else Containerization.none }

/-- The System Processes pseudo-entry that AppsContext::app_items inserts
under the key none: memory and CPU aggregated over the living processes not
claimed by any included app, and the length of the whole process table as
the process count. -/
def AppsContext.system_item (ctx : AppsContext) : AppItem :=
  { id := Option.none
    display_name := "System Processes"
    icon := "system-processes"
    description := Option.none
    memory_usage := (((ctx.all_processes).filter
      (fun p => !((ctx.app_pids).contains p.data.pid) && p.alive)).map
        (fun p => p.data.memory_usage)).sum
    cpu_time_ratio := (((ctx.all_processes).filter
      (fun p => !((ctx.app_pids).contains p.data.pid) && p.alive)).map
        Process.cpu_time_ratio).sum
    processes_amount := ctx.processes.length
    containerization := Containerization.none }

/-- AppsContext::app_items: one entry per running, non-portal app, plus the
synthesized System Processes entry under the key none. -/
def AppsContext.app_items (ctx : AppsContext) : List (Option String × AppItem) :=
  aInsert ((ctx.running_apps).map (fun kv => (some kv.2.id, ctx.app_entry kv.2)))
    Option.none (ctx.system_item)

/-- One iteration of the process loop of AppsContext::new: a process whose
cgroup keys an installed app is recorded as assigned and added to that app;
every process is inserted into the master table. -/
def AppsContext.newStep (ctx : AppsContext) (process : Process) : AppsContext :=
  match alookup ctx.apps (process.data.cgroup.getD "") with
  | some app =>
      let ap := app.add_process process
      { apps := aInsert ctx.apps (process.data.cgroup.getD "") ap.1
        processes := aInsert ctx.processes process.data.pid ap.2
        processes_assigned_to_apps := sInsert ctx.processes_assigned_to_apps process.data.pid }
  | none =>
      { ctx with processes := aInsert ctx.processes process.data.pid process }

/-- AppsContext::new, with the results of the two enumerations (desktop
files via App::all, processes via Process::all) passed in: the app map is
collected first, then every enumerated process runs through the assignment
loop.  Enumeration failure of Process::all aborts new() before any of this
runs, so the failing case constructs nothing and is not modelled here. -/
def AppsContext.new (appsList : List App) (processes_list : List Process) : AppsContext :=
  processes_list.foldl AppsContext.newStep
    { apps := appsList.foldl (fun m app => aInsert m app.id app) []
      processes := []
      processes_assigned_to_apps := [] }

/-- One iteration of the refresh loop over a freshly enumerated process: a
known pid is updated in place (CPU sample shifted into the before fields,
data replaced); a new pid that is already marked assigned is skipped
entirely; otherwise assignment and insertion run exactly as at init. -/
def AppsContext.refreshOne (ctx : AppsContext) (refreshed : Process) : AppsContext :=
  match alookup ctx.processes refreshed.data.pid with
  | some old =>
      let updatedOld : Process :=
        { old with
          cpu_time_before := old.data.cpu_time
          cpu_time_before_timestamp := old.data.cpu_time_timestamp
          data := refreshed.data }
      { ctx with processes := aInsert ctx.processes refreshed.data.pid updatedOld }
  | none =>
      if refreshed.data.pid ∈ ctx.processes_assigned_to_apps then ctx
      else ctx.newStep refreshed

/-- The post-loop pass of AppsContext::refresh: every table entry whose pid
was not seen in this enumeration is marked dead (soft delete). -/
def AppsContext.markDead (ctx : AppsContext) (updated : List Int) : AppsContext :=
  { ctx with processes := ctx.processes.map (fun kv =>
      if updated.contains kv.2.data.pid then kv else (kv.1, { kv.2 with alive := false })) }

/-- The error raised when the OS process table cannot be enumerated. -/
structure EnumerationError where
  message : String
deriving DecidableEq

/-- AppsContext::refresh, with the result of Process::all passed in.  On an
enumeration error the question-mark operator returns before any mutation,
leaving the state untouched.  The updated_processes set receives the pid of
every fresh record unconditionally at the top of the loop, so at the dead
marking pass it equals the list of all fresh pids, which is what is passed
to markDead here. -/
def AppsContext.refresh (ctx : AppsContext)
    (enumeration : Except EnumerationError (List Process)) :
    AppsContext × Except EnumerationError Unit :=
  match enumeration with
  | .error e => (ctx, .error e)
  | .ok fresh =>
      ((fresh.foldl AppsContext.refreshOne ctx).markDead (fresh.map (fun p => p.data.pid)),
        .ok ())

/-- The number of living processes of a context, as the spec phrases it
when describing the System Processes count. -/
def livingCount (ctx : AppsContext) : Nat :=
  (ctx.all_processes).length

/-- The number of living processes claimed by any app, as the spec phrases
it when describing the System Processes count. -/
def claimedLivingCount (ctx : AppsContext) : Nat :=
  ((ctx.all_processes).filter
    (fun p => ctx.apps.any (fun kv => kv.2.processes.contains p.data.pid))).length

/-! ### Concrete sample values used to exercise the definitions -/

/-- A sample per-process record with the given pid. -/
def sampleData (pid : Int) : ProcessData :=
  { pid := pid
    comm := "proc"
    commandline := "proc"
    memory_usage := 100
    cpu_time := 0
    cpu_time_timestamp := 0
    cgroup := some "editor"
    containerization := Containerization.none
    uid := 1000 }

/-- A sample living process with the given pid. -/
def sampleProcess (pid : Int) : Process :=
  { data := sampleData pid
    cpu_time_before := 0
    cpu_time_before_timestamp := 0
    alive := true
    icon := "generic-process" }

/-- A sample installed app claiming pid 1. -/
def editorApp : App :=
  { processes := [1]
    display_name := "Editor"
    description := Option.none
    icon := "editor-icon"
    id := "editor" }

/-- A sample installed app with no processes yet. -/
def appEmpty : App :=
  { processes := []
    display_name := "Editor"
    description := Option.none
    icon := "editor-icon"
    id := "editor" }

/-- A context whose single living process is claimed by its single app. -/
def ctxClaimed : AppsContext :=
  { apps := [("editor", editorApp)]
    processes := [(1, sampleProcess 1)]
    processes_assigned_to_apps := [1] }

/-- A running xdg-desktop-portal app. -/
def portalApp : App :=
  { processes := [7]
    display_name := "Portal"
    description := Option.none
    icon := "portal-icon"
    id := "xdg-desktop-portal-gtk" }

/-- A context in which an xdg-desktop-portal app is running. -/
def ctxPortal : AppsContext :=
  { apps := [("xdg-desktop-portal-gtk", portalApp)]
    processes := [(7, sampleProcess 7)]
    processes_assigned_to_apps := [7] }

/-- A sample app with three living member processes. -/
def appEditor3 : App :=
  { processes := [1, 2, 3]
    display_name := "Editor"
    description := Option.none
    icon := "editor-icon"
    id := "editor" }

/-- A context in which appEditor3 has three living members. -/
def ctx3 : AppsContext :=
  { apps := [("editor", appEditor3)]
    processes := [(1, sampleProcess 1), (2, sampleProcess 2), (3, sampleProcess 3)]
    processes_assigned_to_apps := [1, 2, 3] }

/-- A signal-delivery oracle for which exactly the signal to pid 2 fails
with a permission error. -/
def os3 : Int → ProcessAction → Except ActionError Unit :=
  fun pid _ => if pid = 2 then Except.error ActionError.NotPermitted else Except.ok ()

/-- A context with a spuriously assigned pid 5 that is not in the process
table. -/
def ctxAssigned5 : AppsContext :=
  { apps := []
    processes := []
    processes_assigned_to_apps := [5] }

/-- A context holding one living process with pid 1 and no apps. -/
def ctxLone : AppsContext :=
  { apps := []
    processes := [(1, sampleProcess 1)]
    processes_assigned_to_apps := [] }

/-- An older sample of pid 1, with a distinguishable CPU history. -/
def procOld : Process :=
  { data := { sampleData 1 with cpu_time := 10, cpu_time_timestamp := 5 }
    cpu_time_before := 3
    cpu_time_before_timestamp := 2
    alive := true
    icon := "old-icon" }

/-- A fresh sample of pid 1, one cycle later. -/
def procNew : Process :=
  { data := { sampleData 1 with cpu_time := 20, cpu_time_timestamp := 9 }
    cpu_time_before := 0
    cpu_time_before_timestamp := 0
    alive := true
    icon := "generic-process" }

/-- A context holding procOld under pid 1. -/
def ctxOld : AppsContext :=
  { apps := []
    processes := [(1, procOld)]
    processes_assigned_to_apps := [] }

/-! ### Association list lemmas -/

theorem alookup_mem {κ ν : Type} [DecidableEq κ] {l : List (κ × ν)} {k : κ} {v : ν}
    (h : alookup l k = some v) : (k, v) ∈ l := by
  induction l with
  | nil => simp [alookup] at h
  | cons kv rest ih =>
      simp only [alookup] at h
      split at h
      · cases h
        obtain ⟨a, b⟩ := kv
        rename_i heq
        cases heq
        exact List.mem_cons_self _ _
      · exact List.mem_cons_of_mem _ (ih h)

theorem alookup_append_left_of_some {κ ν : Type} [DecidableEq κ] {l : List (κ × ν)}
    {key : κ} {w : ν} (l2 : List (κ × ν)) (h : alookup l key = some w) :
    alookup (l ++ l2) key = some w := by
  induction l with
  | nil => simp [alookup] at h
  | cons kv rest ih =>
      simp only [alookup] at h ⊢
      split at h
      · rename_i heq
        simp [heq, h]
      · rename_i heq
        simp [heq, ih h]

theorem alookup_map_update_self {κ ν : Type} [DecidableEq κ] {l : List (κ × ν)} {key : κ}
    {w v : ν} (h : alookup l key = some w) :
    alookup (l.map (fun kv => if kv.1 = key then (key, v) else kv)) key = some v := by
  induction l with
  | nil => simp [alookup] at h
  | cons kv rest ih =>
      by_cases hk : kv.1 = key
      · simp [alookup, hk]
      · simp only [alookup, hk, ite_false] at h
        simp [alookup, hk, ih h]

theorem alookup_map_update_ne {κ ν : Type} [DecidableEq κ] {l : List (κ × ν)} {key key' : κ}
    {v : ν} (h : key' ≠ key) :
    alookup (l.map (fun kv => if kv.1 = key then (key, v) else kv)) key' =
      alookup l key' := by
  induction l with
  | nil => simp [alookup]
  | cons kv rest ih =>
      by_cases hk : kv.1 = key
      · simp [alookup, hk, Ne.symm h, ih]
      · by_cases hk' : kv.1 = key'
        · simp [alookup, hk, hk', h]
        · simp [alookup, hk, hk', ih]

theorem alookup_append_of_none {κ ν : Type} [DecidableEq κ] {l l2 : List (κ × ν)} {key : κ}
    (h : alookup l key = none) : alookup (l ++ l2) key = alookup l2 key := by
  induction l with
  | nil => simp
  | cons kv rest ih =>
      by_cases hk : kv.1 = key
      · simp [alookup, hk] at h
      · simp only [alookup, hk, ite_false] at h
        simp [alookup, hk, ih h]

theorem alookup_aInsert_self {κ ν : Type} [DecidableEq κ] (l : List (κ × ν)) (key : κ) (v : ν) :
    alookup (aInsert l key v) key = some v := by
  unfold aInsert
  cases hl : alookup l key with
  | some w => exact alookup_map_update_self hl
  | none =>
      simp only
      rw [alookup_append_of_none hl]
      simp [alookup]

theorem alookup_aInsert_ne {κ ν : Type} [DecidableEq κ] {l : List (κ × ν)} {key key' : κ}
    (v : ν) (h : key' ≠ key) : alookup (aInsert l key v) key' = alookup l key' := by
  unfold aInsert
  cases hl : alookup l key with
  | some w => exact alookup_map_update_ne h
  | none =>
      simp only
      cases hl' : alookup l key' with
      | some w => exact alookup_append_left_of_some _ hl'
      | none =>
          rw [alookup_append_of_none hl']
          simp [alookup, Ne.symm h]

theorem alookup_aInsert_isSome_mono {κ ν : Type} [DecidableEq κ] {l : List (κ × ν)}
    {key' : κ} (key : κ) (v : ν) (h : (alookup l key').isSome) :
    (alookup (aInsert l key v) key').isSome := by
  by_cases hk : key' = key
  · subst hk
    rw [alookup_aInsert_self]
    rfl
  · rw [alookup_aInsert_ne v hk]
    exact h

theorem alookup_map_values {κ ν : Type} [DecidableEq κ] (l : List (κ × ν)) (g : ν → ν)
    (key : κ) :
    alookup (l.map (fun kv => (kv.1, g kv.2))) key = (alookup l key).map g := by
  induction l with
  | nil => simp [alookup]
  | cons kv rest ih =>
      by_cases hk : kv.1 = key
      · simp [alookup, hk]
      · simp [alookup, hk, ih]

theorem mem_sInsert {s : List Int} {x y : Int} :
    x ∈ sInsert s y ↔ x = y ∨ x ∈ s := by
  unfold sInsert
  by_cases h : y ∈ s
  · simp only [h, if_pos]
    constructor
    · exact Or.inr
    · rintro (rfl | hx)
      · exact h
      · exact hx
  · simp [h, List.mem_cons]

theorem mem_sInsert_of_mem {s : List Int} {x : Int} (y : Int) (h : x ∈ s) :
    x ∈ sInsert s y :=
  mem_sInsert.mpr (Or.inr h)

theorem contains_true_iff_mem (l : List Int) (x : Int) : l.contains x = true ↔ x ∈ l := by
  simp [List.contains]

theorem contains_false_iff_not_mem (l : List Int) (x : Int) :
    l.contains x = false ↔ x ∉ l := by
  rw [Bool.eq_false_iff]
  exact not_congr (contains_true_iff_mem l x)

theorem mem_aInsert {κ ν : Type} [DecidableEq κ] {l : List (κ × ν)} {key : κ} {v : ν}
    {kv : κ × ν} (h : kv ∈ aInsert l key v) : kv = (key, v) ∨ kv ∈ l := by
  unfold aInsert at h
  cases hl : alookup l key with
  | some w =>
      rw [hl] at h
      simp only [List.mem_map] at h
      obtain ⟨kv0, hkv0, rfl⟩ := h
      by_cases hk : kv0.1 = key
      · simp [hk]
      · simp only [hk, ite_false]
        exact Or.inr hkv0
  | none =>
      rw [hl] at h
      rcases List.mem_append.mp h with h | h
      · exact Or.inr h
      · simp only [List.mem_singleton] at h
        exact Or.inl h

/-! ### Structural lemmas about one reconciliation step -/

theorem newStep_processes_other (ctx : AppsContext) (process : Process) {pid : Int}
    (h : pid ≠ process.data.pid) :
    alookup (ctx.newStep process).processes pid = alookup ctx.processes pid := by
  unfold AppsContext.newStep
  cases alookup ctx.apps (process.data.cgroup.getD "") <;>
    simp [alookup_aInsert_ne _ h]

theorem refreshOne_processes_other (ctx : AppsContext) (refreshed : Process) {pid : Int}
    (h : pid ≠ refreshed.data.pid) :
    alookup (ctx.refreshOne refreshed).processes pid = alookup ctx.processes pid := by
  unfold AppsContext.refreshOne
  cases alookup ctx.processes refreshed.data.pid with
  | some old => exact alookup_aInsert_ne _ h
  | none =>
      by_cases ha : refreshed.data.pid ∈ ctx.processes_assigned_to_apps
      · simp [ha]
      · simp [ha, newStep_processes_other ctx refreshed h]

theorem newStep_assigned_other (ctx : AppsContext) (process : Process) {pid : Int}
    (h : pid ≠ process.data.pid) :
    (pid ∈ (ctx.newStep process).processes_assigned_to_apps ↔
      pid ∈ ctx.processes_assigned_to_apps) := by
  unfold AppsContext.newStep
  cases alookup ctx.apps (process.data.cgroup.getD "") with
  | some app => simp [mem_sInsert, h]
  | none => simp

theorem refreshOne_assigned_other (ctx : AppsContext) (refreshed : Process) {pid : Int}
    (h : pid ≠ refreshed.data.pid) :
    (pid ∈ (ctx.refreshOne refreshed).processes_assigned_to_apps ↔
      pid ∈ ctx.processes_assigned_to_apps) := by
  unfold AppsContext.refreshOne
  cases alookup ctx.processes refreshed.data.pid with
  | some old => simp
  | none =>
      by_cases ha : refreshed.data.pid ∈ ctx.processes_assigned_to_apps
      · simp [ha]
      · simp [ha, newStep_assigned_other ctx refreshed h]

theorem refreshOne_assigned_mono (ctx : AppsContext) (refreshed : Process) {pid : Int}
    (h : pid ∈ ctx.processes_assigned_to_apps) :
    pid ∈ (ctx.refreshOne refreshed).processes_assigned_to_apps := by
  unfold AppsContext.refreshOne AppsContext.newStep
  cases alookup ctx.processes refreshed.data.pid with
  | some old => exact h
  | none =>
      by_cases ha : refreshed.data.pid ∈ ctx.processes_assigned_to_apps
      · simp [ha, h]
      · simp only [ha, ite_false]
        cases alookup ctx.apps (refreshed.data.cgroup.getD "") with
        | some app => exact mem_sInsert_of_mem _ h
        | none => exact h

theorem newStep_apps_mem_rev (ctx : AppsContext) (process : Process) {pid : Int}
    {k : String} {app' : App} (h : pid ≠ process.data.pid)
    (hl : alookup (ctx.newStep process).apps k = some app') (hm : pid ∈ app'.processes) :
    ∃ app, alookup ctx.apps k = some app ∧ pid ∈ app.processes := by
  unfold AppsContext.newStep at hl
  cases happ : alookup ctx.apps (process.data.cgroup.getD "") with
  | some app0 =>
      rw [happ] at hl
      simp only [App.add_process] at hl
      by_cases hk : k = process.data.cgroup.getD ""
      · subst hk
        rw [alookup_aInsert_self] at hl
        cases hl
        rcases List.mem_append.mp hm with hm | hm
        · exact ⟨app0, happ, hm⟩
        · simp only [List.mem_singleton] at hm
          exact absurd hm h
      · rw [alookup_aInsert_ne _ hk] at hl
        exact ⟨app', hl, hm⟩
  | none =>
      rw [happ] at hl
      exact ⟨app', hl, hm⟩

theorem newStep_apps_mem_fwd (ctx : AppsContext) (process : Process) {pid : Int}
    {k : String} {app : App}
    (hl : alookup ctx.apps k = some app) (hm : pid ∈ app.processes) :
    ∃ app', alookup (ctx.newStep process).apps k = some app' ∧ pid ∈ app'.processes := by
  unfold AppsContext.newStep
  cases happ : alookup ctx.apps (process.data.cgroup.getD "") with
  | some app0 =>
      simp only [App.add_process]
      by_cases hk : k = process.data.cgroup.getD ""
      · subst hk
        rw [happ] at hl
        cases hl
        exact ⟨_, alookup_aInsert_self _ _ _, List.mem_append_left _ hm⟩
      · exact ⟨app, (alookup_aInsert_ne _ hk).trans hl, hm⟩
  | none => exact ⟨app, hl, hm⟩

theorem refreshOne_apps_mem_rev (ctx : AppsContext) (refreshed : Process) {pid : Int}
    {k : String} {app' : App}
    (hassigned : pid ∈ ctx.processes_assigned_to_apps ∨ pid ≠ refreshed.data.pid)
    (hl : alookup (ctx.refreshOne refreshed).apps k = some app') (hm : pid ∈ app'.processes) :
    ∃ app, alookup ctx.apps k = some app ∧ pid ∈ app.processes := by
  unfold AppsContext.refreshOne at hl
  cases hp : alookup ctx.processes refreshed.data.pid with
  | some old =>
      rw [hp] at hl
      exact ⟨app', hl, hm⟩
  | none =>
      rw [hp] at hl
      by_cases ha : refreshed.data.pid ∈ ctx.processes_assigned_to_apps
      · rw [if_pos ha] at hl
        exact ⟨app', hl, hm⟩
      · rw [if_neg ha] at hl
        have hne : pid ≠ refreshed.data.pid := by
          rcases hassigned with hmem | hne
          · intro heq
            exact ha (heq ▸ hmem)
          · exact hne
        exact newStep_apps_mem_rev ctx refreshed hne hl hm

theorem refreshOne_apps_mem_fwd (ctx : AppsContext) (refreshed : Process) {pid : Int}
    {k : String} {app : App}
    (hl : alookup ctx.apps k = some app) (hm : pid ∈ app.processes) :
    ∃ app', alookup (ctx.refreshOne refreshed).apps k = some app' ∧ pid ∈ app'.processes := by
  unfold AppsContext.refreshOne
  cases hp : alookup ctx.processes refreshed.data.pid with
  | some old => exact ⟨app, hl, hm⟩
  | none =>
      by_cases ha : refreshed.data.pid ∈ ctx.processes_assigned_to_apps
      · simp only [ha, ite_true]
        exact ⟨app, hl, hm⟩
      · simp only [ha, ite_false]
        exact newStep_apps_mem_fwd ctx refreshed hl hm

theorem markDead_processes_lookup (ctx : AppsContext) (updated : List Int) (pid : Int) :
    alookup (ctx.markDead updated).processes pid =
      (alookup ctx.processes pid).map
        (fun p => if updated.contains p.data.pid then p else { p with alive := false }) := by
  unfold AppsContext.markDead
  have hf : (fun kv : Int × Process =>
        if updated.contains kv.2.data.pid then kv else (kv.1, { kv.2 with alive := false })) =
      (fun kv : Int × Process =>
        (kv.1, if updated.contains kv.2.data.pid then kv.2 else { kv.2 with alive := false })) := by
    funext kv
    by_cases hc : updated.contains kv.2.data.pid
    · rw [if_pos hc, if_pos hc]
    · rw [if_neg hc, if_neg hc]
  simp only [hf]
  exact alookup_map_values ctx.processes
    (fun p => if updated.contains p.data.pid then p else { p with alive := false }) pid

/-! ### Lemmas about the whole refresh loop -/

theorem foldl_refreshOne_processes_not_mem (fresh : List Process) (ctx : AppsContext)
    {pid : Int} (h : pid ∉ fresh.map (fun p => p.data.pid)) :
    alookup (fresh.foldl AppsContext.refreshOne ctx).processes pid =
      alookup ctx.processes pid := by
  induction fresh generalizing ctx with
  | nil => rfl
  | cons rp rest ih =>
      simp only [List.map_cons, List.mem_cons] at h
      push_neg at h
      rw [List.foldl_cons, ih _ h.2, refreshOne_processes_other ctx rp h.1]

theorem foldl_refreshOne_assigned_mono (fresh : List Process) (ctx : AppsContext)
    {pid : Int} (h : pid ∈ ctx.processes_assigned_to_apps) :
    pid ∈ (fresh.foldl AppsContext.refreshOne ctx).processes_assigned_to_apps := by
  induction fresh generalizing ctx with
  | nil => exact h
  | cons rp rest ih =>
      exact ih _ (refreshOne_assigned_mono ctx rp h)

theorem foldl_refreshOne_apps_mem_rev (fresh : List Process) (ctx : AppsContext)
    {pid : Int} {k : String} {app' : App} (hassigned : pid ∈ ctx.processes_assigned_to_apps)
    (hl : alookup (fresh.foldl AppsContext.refreshOne ctx).apps k = some app')
    (hm : pid ∈ app'.processes) :
    ∃ app, alookup ctx.apps k = some app ∧ pid ∈ app.processes := by
  induction fresh generalizing ctx with
  | nil => exact ⟨app', hl, hm⟩
  | cons rp rest ih =>
      obtain ⟨app1, hl1, hm1⟩ :=
        ih (ctx.refreshOne rp) (refreshOne_assigned_mono ctx rp hassigned) hl
      exact refreshOne_apps_mem_rev ctx rp (Or.inl hassigned) hl1 hm1

theorem foldl_refreshOne_apps_mem_fwd (fresh : List Process) (ctx : AppsContext)
    {pid : Int} {k : String} {app : App}
    (hl : alookup ctx.apps k = some app) (hm : pid ∈ app.processes) :
    ∃ app', alookup (fresh.foldl AppsContext.refreshOne ctx).apps k = some app' ∧
      pid ∈ app'.processes := by
  induction fresh generalizing ctx app with
  | nil => exact ⟨app, hl, hm⟩
  | cons rp rest ih =>
      obtain ⟨app1, hl1, hm1⟩ := refreshOne_apps_mem_fwd ctx rp hl hm
      exact ih _ hl1 hm1

/-! ### The referential invariant -/

/-- Invariant of section 3: every pid in any app's membership list is a key
of the process table and is in the assigned index. -/
def Inv (ctx : AppsContext) : Prop :=
  ∀ kv ∈ ctx.apps, ∀ pid ∈ kv.2.processes,
    (alookup ctx.processes pid).isSome ∧ pid ∈ ctx.processes_assigned_to_apps

theorem newStep_Inv (ctx : AppsContext) (process : Process) (h : Inv ctx) :
    Inv (ctx.newStep process) := by
  unfold AppsContext.newStep
  cases happ : alookup ctx.apps (process.data.cgroup.getD "") with
  | none =>
      intro kv hkv pid hpid
      have h0 := h kv hkv pid hpid
      exact ⟨alookup_aInsert_isSome_mono _ _ h0.1, h0.2⟩
  | some app0 =>
      intro kv hkv pid hpid
      simp only [App.add_process] at hkv
      rcases mem_aInsert hkv with rfl | hkv'
      · simp only [App.add_process] at hpid
        rcases List.mem_append.mp hpid with hp | hp
        · have h0 := h _ (alookup_mem happ) pid hp
          exact ⟨alookup_aInsert_isSome_mono _ _ h0.1, mem_sInsert_of_mem _ h0.2⟩
        · simp only [List.mem_singleton] at hp
          subst hp
          refine ⟨?_, mem_sInsert.mpr (Or.inl rfl)⟩
          rw [alookup_aInsert_self]
          rfl
      · have h0 := h kv hkv' pid hpid
        exact ⟨alookup_aInsert_isSome_mono _ _ h0.1, mem_sInsert_of_mem _ h0.2⟩

theorem refreshOne_Inv (ctx : AppsContext) (refreshed : Process) (h : Inv ctx) :
    Inv (ctx.refreshOne refreshed) := by
  unfold AppsContext.refreshOne
  cases hp : alookup ctx.processes refreshed.data.pid with
  | some old =>
      intro kv hkv pid hpid
      have h0 := h kv hkv pid hpid
      exact ⟨alookup_aInsert_isSome_mono _ _ h0.1, h0.2⟩
  | none =>
      by_cases ha : refreshed.data.pid ∈ ctx.processes_assigned_to_apps
      · simpa [ha] using h
      · simp only [ha, ite_false]
        exact newStep_Inv ctx refreshed h

theorem markDead_Inv (ctx : AppsContext) (updated : List Int) (h : Inv ctx) :
    Inv (ctx.markDead updated) := by
  intro kv hkv pid hpid
  have h0 := h kv hkv pid hpid
  refine ⟨?_, h0.2⟩
  rw [markDead_processes_lookup]
  cases ho : alookup ctx.processes pid with
  | some p => rfl
  | none => rw [ho] at h0; simp at h0

theorem foldl_refreshOne_Inv (fresh : List Process) (ctx : AppsContext) (h : Inv ctx) :
    Inv (fresh.foldl AppsContext.refreshOne ctx) := by
  induction fresh generalizing ctx with
  | nil => exact h
  | cons rp rest ih => exact ih _ (refreshOne_Inv ctx rp h)

theorem new_apps_empty (appsList : List App) (m : List (String × App))
    (hm : ∀ kv ∈ m, kv.2.processes = []) (hl : ∀ a ∈ appsList, a.processes = []) :
    ∀ kv ∈ appsList.foldl (fun m app => aInsert m app.id app) m, kv.2.processes = [] := by
  induction appsList generalizing m with
  | nil => exact hm
  | cons a rest ih =>
      refine ih _ ?_ (fun b hb => hl b (List.mem_cons_of_mem _ hb))
      intro kv hkv
      rcases mem_aInsert hkv with rfl | hkv'
      · exact hl a (List.mem_cons_self _ _)
      · exact hm kv hkv'

theorem foldl_newStep_Inv (pl : List Process) (ctx : AppsContext) (h : Inv ctx) :
    Inv (pl.foldl AppsContext.newStep ctx) := by
  induction pl generalizing ctx with
  | nil => exact h
  | cons p rest ih => exact ih _ (newStep_Inv ctx p h)

theorem new_Inv (appsList : List App) (pl : List Process)
    (hl : ∀ a ∈ appsList, a.processes = []) : Inv (AppsContext.new appsList pl) := by
  unfold AppsContext.new
  apply foldl_newStep_Inv
  intro kv hkv pid hpid
  rw [new_apps_empty appsList [] (by simp) hl kv hkv] at hpid
  simp at hpid

/-! ### Further lemmas feeding the claim proofs -/

theorem alookup_map_of_ne {α κ ν : Type} [DecidableEq κ] (l : List α) (keyf : α → κ)
    (valf : α → ν) {key : κ} (h : ∀ x ∈ l, keyf x ≠ key) :
    alookup (l.map (fun x => (keyf x, valf x))) key = none := by
  induction l with
  | nil => rfl
  | cons a rest ih =>
      simp only [List.map_cons, alookup]
      rw [if_neg (h a (List.mem_cons_self _ _))]
      exact ih (fun x hx => h x (List.mem_cons_of_mem _ hx))

theorem alookup_filterMap_none {α κ ν : Type} [DecidableEq κ] (l : List α) (keyf : α → κ)
    (f : α → Option ν) {key : κ} (h : ∀ x ∈ l, keyf x ≠ key) :
    alookup (l.filterMap (fun x => (f x).map (fun v => (keyf x, v)))) key = none := by
  induction l with
  | nil => rfl
  | cons a rest ih =>
      simp only [List.filterMap_cons]
      cases hfa : f a with
      | none =>
          simp only [hfa, Option.map_none']
          exact ih (fun x hx => h x (List.mem_cons_of_mem _ hx))
      | some v =>
          simp only [hfa, Option.map_some', alookup]
          rw [if_neg (h a (List.mem_cons_self _ _))]
          exact ih (fun x hx => h x (List.mem_cons_of_mem _ hx))

theorem processes_iter_eq (app : App) (ctx : AppsContext) :
    app.processes_iter ctx = (ctx.processes.map Prod.snd).filter
      (fun p => p.alive && app.processes.contains p.data.pid) := by
  unfold App.processes_iter AppsContext.all_processes
  rw [List.filter_filter]
  apply List.filter_congr
  intro p hp
  cases hpa : p.alive <;> simp [hpa]

theorem foldl_refreshOne_assigned_not_mem (fresh : List Process) (ctx : AppsContext)
    {pid : Int} (h : pid ∉ fresh.map (fun p => p.data.pid)) :
    (pid ∈ (fresh.foldl AppsContext.refreshOne ctx).processes_assigned_to_apps ↔
      pid ∈ ctx.processes_assigned_to_apps) := by
  induction fresh generalizing ctx with
  | nil => exact Iff.rfl
  | cons rp rest ih =>
      simp only [List.map_cons, List.mem_cons] at h
      push_neg at h
      rw [List.foldl_cons]
      exact (ih _ h.2).trans (refreshOne_assigned_other ctx rp h.1)

theorem newStep_apps_isSome (ctx : AppsContext) (process : Process) (k : String) :
    (alookup (ctx.newStep process).apps k).isSome = (alookup ctx.apps k).isSome := by
  unfold AppsContext.newStep
  cases happ : alookup ctx.apps (process.data.cgroup.getD "") with
  | some app0 =>
      by_cases hk : k = process.data.cgroup.getD ""
      · subst hk
        rw [alookup_aInsert_self, happ]
        rfl
      · rw [alookup_aInsert_ne _ hk]
  | none => rfl

theorem refreshOne_apps_isSome (ctx : AppsContext) (refreshed : Process) (k : String) :
    (alookup (ctx.refreshOne refreshed).apps k).isSome = (alookup ctx.apps k).isSome := by
  unfold AppsContext.refreshOne
  cases hp : alookup ctx.processes refreshed.data.pid with
  | some old => rfl
  | none =>
      by_cases ha : refreshed.data.pid ∈ ctx.processes_assigned_to_apps
      · simp [ha]
      · simp only [ha, ite_false]
        exact newStep_apps_isSome ctx refreshed k

theorem foldl_refreshOne_apps_isSome (fresh : List Process) (ctx : AppsContext) (k : String) :
    (alookup (fresh.foldl AppsContext.refreshOne ctx).apps k).isSome =
      (alookup ctx.apps k).isSome := by
  induction fresh generalizing ctx with
  | nil => rfl
  | cons rp rest ih =>
      rw [List.foldl_cons, ih, refreshOne_apps_isSome]

theorem refreshOne_update (ctx : AppsContext) (rp : Process) {pid : Int} {p : Process}
    (hpid : rp.data.pid = pid) (hp : alookup ctx.processes pid = some p) :
    alookup (ctx.refreshOne rp).processes pid =
      some { p with cpu_time_before := p.data.cpu_time
                    cpu_time_before_timestamp := p.data.cpu_time_timestamp
                    data := rp.data } := by
  unfold AppsContext.refreshOne
  simp only [hpid, hp]
  exact alookup_aInsert_self _ _ _

theorem markDead_alive_mem (ctx : AppsContext) (updated : List Int) {p : Process}
    (h : p ∈ (ctx.markDead updated).all_processes) : updated.contains p.data.pid = true := by
  unfold AppsContext.markDead AppsContext.all_processes at h
  rw [List.mem_filter] at h
  obtain ⟨hmem, halive⟩ := h
  rw [List.map_map] at hmem
  obtain ⟨kv, hkv, hfp⟩ := List.mem_map.mp hmem
  by_cases hc : updated.contains kv.2.data.pid
  · simp only [Function.comp, hc, if_pos] at hfp
    rw [← hfp]
    exact hc
  · simp only [Function.comp, hc, if_neg, ite_false] at hfp
    rw [← hfp] at halive
    simp at halive

theorem alookup_process_items_none (ctx : AppsContext) {pid : Int}
    (h : ∀ p ∈ ctx.all_processes, p.data.pid ≠ pid) :
    alookup ctx.process_items pid = none := by
  unfold AppsContext.process_items
  exact alookup_filterMap_none _ _ _ (fun p hp => h p (List.mem_filter.mp hp).1)

theorem refreshOne_skip (ctx : AppsContext) (rp : Process)
    (hn : alookup ctx.processes rp.data.pid = none)
    (ha : rp.data.pid ∈ ctx.processes_assigned_to_apps) :
    ctx.refreshOne rp = ctx := by
  unfold AppsContext.refreshOne
  simp only [hn, ha, ite_true]

theorem refreshOne_new (ctx : AppsContext) (rp : Process)
    (hn : alookup ctx.processes rp.data.pid = none)
    (ha : rp.data.pid ∉ ctx.processes_assigned_to_apps) :
    ctx.refreshOne rp = ctx.newStep rp := by
  unfold AppsContext.refreshOne
  simp only [hn, ha, ite_false]

theorem newStep_effects (ctx : AppsContext) (rp : Process) {app0 : App}
    (happ : alookup ctx.apps (rp.data.cgroup.getD "") = some app0) :
    alookup (ctx.newStep rp).processes rp.data.pid = some { rp with icon := app0.icon } ∧
    rp.data.pid ∈ (ctx.newStep rp).processes_assigned_to_apps ∧
    alookup (ctx.newStep rp).apps (rp.data.cgroup.getD "") =
      some { app0 with processes := app0.processes ++ [rp.data.pid] } := by
  unfold AppsContext.newStep
  simp only [happ, App.add_process]
  exact ⟨alookup_aInsert_self _ _ _, mem_sInsert.mpr (Or.inl rfl),
    alookup_aInsert_self _ _ _⟩

theorem newStep_effects_none (ctx : AppsContext) (rp : Process)
    (happ : alookup ctx.apps (rp.data.cgroup.getD "") = none) :
    alookup (ctx.newStep rp).processes rp.data.pid = some rp ∧
    (ctx.newStep rp).apps = ctx.apps ∧
    (ctx.newStep rp).processes_assigned_to_apps = ctx.processes_assigned_to_apps := by
  unfold AppsContext.newStep
  simp only [happ]
  exact ⟨alookup_aInsert_self _ _ _, by trivial, by trivial⟩

/-! ### The claims -/

/-- C6: if process enumeration fails, refresh returns that error and the
whole AppsContext state is exactly as it was before the call. -/
theorem C6_refresh_enumeration_error (ctx : AppsContext) (e : EnumerationError) :
    ctx.refresh (Except.error e) = (ctx, Except.error e) :=
  rfl

/-- C7: App::cpu_time_ratio is the sum of cpu_time_ratio over the app's
living member processes clamped to the unit interval; in particular it
always lies within the unit interval. -/
theorem C7_app_cpu_time_ratio (app : App) (ctx : AppsContext) :
    app.cpu_time_ratio ctx =
      max 0 (min 1 ((((ctx.processes.map Prod.snd).filter
        (fun p => p.alive && app.processes.contains p.data.pid)).map
          Process.cpu_time_ratio).sum)) ∧
    0 ≤ app.cpu_time_ratio ctx ∧ app.cpu_time_ratio ctx ≤ 1 := by
  refine ⟨?_, ?_, ?_⟩
  · unfold App.cpu_time_ratio
    rw [processes_iter_eq]
  · exact le_max_left _ _
  · exact max_le (by norm_num) (min_le_left _ _)

/-- C8: App::execute_process_action yields one result per living member
process, each being the outcome of that process's own signal delivery,
never aggregated; on the concrete three-member app whose oracle rejects
only pid 2, the sequence has length three, exactly one NotPermitted error
and two successes. -/
theorem C8_execute_per_process (app : App) (ctx : AppsContext)
    (os : Int → ProcessAction → Except ActionError Unit) (action : ProcessAction) :
    (app.execute_process_action ctx os action).length = (app.processes_iter ctx).length ∧
    app.execute_process_action ctx os action =
      (app.processes_iter ctx).map (fun p => os p.data.pid action) ∧
    (appEditor3.execute_process_action ctx3 os3 ProcessAction.TERM).length = 3 ∧
    ((appEditor3.execute_process_action ctx3 os3 ProcessAction.TERM).countP
      (fun r => match r with | Except.error ActionError.NotPermitted => true
                             | _ => false)) = 1 ∧
    ((appEditor3.execute_process_action ctx3 os3 ProcessAction.TERM).countP
      (fun r => match r with | Except.ok _ => true | _ => false)) = 2 := by
  refine ⟨List.length_map _ _, rfl, ?_, ?_, ?_⟩ <;> decide

/-- C9: app_items never contains an entry keyed by an app id that starts
with xdg-desktop-portal, whatever the state, even if that app is running. -/
theorem C9_app_items_excludes_portal (ctx : AppsContext) (id : String)
    (h : strStartsWith id "xdg-desktop-portal" = true) :
    alookup ctx.app_items (some id) = none := by
  unfold AppsContext.app_items
  rw [alookup_aInsert_ne _ (by simp : (some id : Option String) ≠ Option.none)]
  apply alookup_map_of_ne
  intro kv hkv heq
  have h2 : kv.2.id = id := by injection heq
  unfold AppsContext.running_apps at hkv
  rw [List.mem_filter] at hkv
  have hcond := hkv.2
  rw [Bool.and_eq_true] at hcond
  have hns := hcond.2
  rw [Bool.not_eq_true'] at hns
  simp [h2, h] at hns

/-- C9 witness: in a state where the portal app is running, its id is still
absent from app_items. -/
theorem C9_witness :
    alookup ctxPortal.app_items (some "xdg-desktop-portal-gtk") = none :=
  C9_app_items_excludes_portal ctxPortal "xdg-desktop-portal-gtk" (by decide)

/-- C10: the per-app timestamp aggregates guard their division: 0 when the
member pid list is empty, otherwise the sum over living members divided by
the total length of the member pid list, dead members included. -/
theorem C10_app_timestamps_guarded (app : App) (ctx : AppsContext) :
    app.cpu_time_timestamp ctx =
      (if app.processes.length = 0 then 0
       else (((ctx.processes.map Prod.snd).filter
          (fun p => p.alive && app.processes.contains p.data.pid)).map
            (fun p => p.data.cpu_time_timestamp)).sum / app.processes.length) ∧
    app.cpu_time_before_timestamp ctx =
      (if app.processes.length = 0 then 0
       else (((ctx.processes.map Prod.snd).filter
          (fun p => p.alive && app.processes.contains p.data.pid)).map
            (fun p => p.cpu_time_before_timestamp)).sum / app.processes.length) := by
  refine ⟨?_, ?_⟩
  · unfold App.cpu_time_timestamp checkedDiv
    rw [processes_iter_eq]
    by_cases h : app.processes.length = 0 <;> simp [h]
  · unfold App.cpu_time_before_timestamp checkedDiv
    rw [processes_iter_eq]
    by_cases h : app.processes.length = 0 <;> simp [h]

/-- C1 fails as stated: in ctxClaimed there is 1 living process and it is
claimed by an app, so the claimed count (living minus claimed) is 0, yet
the System Processes entry reports a count of 1 (the table length). -/
theorem C1_counterexample :
    (alookup ctxClaimed.app_items Option.none).map (fun item => item.processes_amount) =
      some 1 ∧
    livingCount ctxClaimed - claimedLivingCount ctxClaimed = 0 ∧ (1 : Nat) ≠ 0 := by
  refine ⟨rfl, by decide, by decide⟩

/-- C1 (amended): app_items always contains exactly one entry whose
AppItem id is none, and that entry's processes_amount is the total number
of rows of the process table, dead rows and app-claimed rows included. -/
theorem C1_app_items_system_entry (ctx : AppsContext) :
    ((ctx.app_items).filter (fun kv => kv.2.id.isNone)).length = 1 ∧
    ∀ item, alookup ctx.app_items Option.none = some item →
      item.processes_amount = ctx.processes.length := by
  have hentries : alookup ((ctx.running_apps).map
      (fun kv => (some kv.2.id, ctx.app_entry kv.2))) Option.none = none :=
    alookup_map_of_ne _ _ _ (fun x hx => by simp)
  have happ : ctx.app_items = ((ctx.running_apps).map
      (fun kv => (some kv.2.id, ctx.app_entry kv.2))) ++ [(Option.none, ctx.system_item)] := by
    unfold AppsContext.app_items aInsert
    rw [hentries]
  constructor
  · rw [happ, List.filter_append]
    have h1 : ((ctx.running_apps).map (fun kv => (some kv.2.id, ctx.app_entry kv.2))).filter
        (fun kv => kv.2.id.isNone) = [] := by
      rw [List.filter_eq_nil_iff]
      intro kv hkv
      obtain ⟨x, hx, rfl⟩ := List.mem_map.mp hkv
      simp [AppsContext.app_entry]
    rw [h1]
    rfl
  · intro item hitem
    rw [happ, alookup_append_of_none hentries] at hitem
    simp only [alookup, if_pos rfl] at hitem
    cases hitem
    rfl

/-- C1 witness: the amended statement applied to the concrete claimed
state. -/
theorem C1_witness :
    (ctxClaimed.system_item).processes_amount = ctxClaimed.processes.length :=
  (C1_app_items_system_entry ctxClaimed).2 ctxClaimed.system_item rfl

/-- C4: a process that is in the table before a refresh and whose pid is
absent from that refresh's fresh enumeration is, afterwards, marked dead
yet still returned by get_process (the row is retained), and it is absent
from process_items. -/
theorem C4_absent_pid_soft_delete (ctx : AppsContext) (fresh : List Process) (pid : Int)
    (p : Process) (hp : alookup ctx.processes pid = some p) (hpid : p.data.pid = pid)
    (habs : pid ∉ fresh.map (fun q => q.data.pid)) :
    (ctx.refresh (Except.ok fresh)).1.get_process pid = some { p with alive := false } ∧
    alookup ((ctx.refresh (Except.ok fresh)).1.process_items) pid = none := by
  have hfold : alookup (fresh.foldl AppsContext.refreshOne ctx).processes pid = some p :=
    (foldl_refreshOne_processes_not_mem fresh ctx habs).trans hp
  have hcont : (fresh.map (fun q => q.data.pid)).contains p.data.pid = false := by
    rw [hpid]
    exact (contains_false_iff_not_mem _ _).mpr habs
  constructor
  · show alookup ((fresh.foldl AppsContext.refreshOne ctx).markDead
      (fresh.map (fun q => q.data.pid))).processes pid = _
    rw [markDead_processes_lookup, hfold, Option.map_some']
    split
    · rename_i hcond
      rw [hcont] at hcond
      exact Bool.noConfusion hcond
    · rfl
  · apply alookup_process_items_none
    intro q hq heq
    have hqc := markDead_alive_mem _ _ hq
    rw [heq] at hqc
    exact habs ((contains_true_iff_mem _ _).mp hqc)

/-- C4 witness: refreshing ctxLone against an empty enumeration marks pid 1
dead, keeps it queryable, and drops it from process_items. -/
theorem C4_witness :
    (ctxLone.refresh (Except.ok [])).1.get_process 1 =
      some { sampleProcess 1 with alive := false } ∧
    alookup ((ctxLone.refresh (Except.ok [])).1.process_items) 1 = none :=
  C4_absent_pid_soft_delete ctxLone [] 1 (sampleProcess 1) rfl rfl (by simp)

/-- C5: a freshly enumerated process whose pid is already a key of the
table is updated in place: the previous CPU time and timestamp move into
the before fields, data is replaced by the fresh record, and the alive flag
and icon are untouched. -/
theorem C5_update_in_place (ctx : AppsContext) (l1 l2 : List Process) (rp : Process)
    (pid : Int) (p : Process)
    (hp : alookup ctx.processes pid = some p) (hpid : rp.data.pid = pid)
    (h1 : pid ∉ l1.map (fun q => q.data.pid)) (h2 : pid ∉ l2.map (fun q => q.data.pid)) :
    (ctx.refresh (Except.ok (l1 ++ rp :: l2))).1.get_process pid =
      some { p with cpu_time_before := p.data.cpu_time
                    cpu_time_before_timestamp := p.data.cpu_time_timestamp
                    data := rp.data } := by
  have hA : alookup (l1.foldl AppsContext.refreshOne ctx).processes pid = some p :=
    (foldl_refreshOne_processes_not_mem l1 ctx h1).trans hp
  have hB := refreshOne_update (l1.foldl AppsContext.refreshOne ctx) rp hpid hA
  have hC : alookup (l2.foldl AppsContext.refreshOne
      ((l1.foldl AppsContext.refreshOne ctx).refreshOne rp)).processes pid =
      some { p with cpu_time_before := p.data.cpu_time
                    cpu_time_before_timestamp := p.data.cpu_time_timestamp
                    data := rp.data } :=
    (foldl_refreshOne_processes_not_mem l2 _ h2).trans hB
  have hmemu : pid ∈ (l1 ++ rp :: l2).map (fun q => q.data.pid) := by
    rw [List.map_append]
    exact List.mem_append_right _ (by simp [hpid])
  have hcont : ((l1 ++ rp :: l2).map (fun q => q.data.pid)).contains rp.data.pid = true := by
    rw [hpid]
    exact (contains_true_iff_mem _ _).mpr hmemu
  show alookup (((l1 ++ rp :: l2).foldl AppsContext.refreshOne ctx).markDead
    ((l1 ++ rp :: l2).map (fun q => q.data.pid))).processes pid = _
  rw [List.foldl_append, List.foldl_cons, markDead_processes_lookup, hC, Option.map_some']
  split
  · rfl
  · rename_i hcond
    exact absurd hcont hcond

/-- C5 witness: refreshing ctxOld with a fresh sample of pid 1 shifts the
old CPU sample into the before fields and installs the fresh data. -/
theorem C5_witness :
    (ctxOld.refresh (Except.ok [procNew])).1.get_process 1 =
      some { procOld with cpu_time_before := procOld.data.cpu_time
                          cpu_time_before_timestamp := procOld.data.cpu_time_timestamp
                          data := procNew.data } :=
  C5_update_in_place ctxOld [] [] procNew 1 procOld rfl rfl (by simp) (by simp)

/-- C2 fails as stated: pid 5 is freshly enumerated, not a key of the
table, and spuriously marked assigned, yet refresh does not insert it into
the master table. -/
theorem C2_counterexample :
    (5 : Int) ∈ ctxAssigned5.processes_assigned_to_apps ∧
    ctxAssigned5.get_process 5 = none ∧
    (ctxAssigned5.refresh (Except.ok [sampleProcess 5])).1.get_process 5 = none := by
  refine ⟨by decide, rfl, rfl⟩

/-- C2 (amended): during refresh, a freshly enumerated process whose pid is
not yet a key of the table is handled thus: if the pid is already in
processes_assigned_to_apps, the record is skipped entirely, neither
assigned to an app nor inserted into the master table; otherwise
cgroup-based assignment is attempted exactly as at init and the process is
inserted into the master table regardless of the assignment outcome. -/
theorem C2_refresh_new_pid (ctx : AppsContext) (l1 l2 : List Process) (rp : Process)
    (pid : Int) (hpid : rp.data.pid = pid)
    (hnew : alookup ctx.processes pid = none)
    (h1 : pid ∉ l1.map (fun q => q.data.pid)) (h2 : pid ∉ l2.map (fun q => q.data.pid)) :
    (pid ∈ ctx.processes_assigned_to_apps →
      ((ctx.refresh (Except.ok (l1 ++ rp :: l2))).1.get_process pid = none ∧
       ∀ k app', alookup ((ctx.refresh (Except.ok (l1 ++ rp :: l2))).1).apps k = some app' →
         pid ∈ app'.processes →
         ∃ app, alookup ctx.apps k = some app ∧ pid ∈ app.processes)) ∧
    (pid ∉ ctx.processes_assigned_to_apps →
      ∃ q, (ctx.refresh (Except.ok (l1 ++ rp :: l2))).1.get_process pid = some q ∧
        q.data = rp.data ∧
        (∀ app0, alookup ctx.apps (rp.data.cgroup.getD "") = some app0 →
          pid ∈ ((ctx.refresh (Except.ok (l1 ++ rp :: l2))).1).processes_assigned_to_apps ∧
          ∃ app', alookup ((ctx.refresh (Except.ok (l1 ++ rp :: l2))).1).apps
              (rp.data.cgroup.getD "") = some app' ∧ pid ∈ app'.processes) ∧
        (alookup ctx.apps (rp.data.cgroup.getD "") = none → q = rp)) := by
  have hA : alookup (l1.foldl AppsContext.refreshOne ctx).processes pid = none :=
    (foldl_refreshOne_processes_not_mem l1 ctx h1).trans hnew
  have hup : ((l1 ++ rp :: l2).foldl AppsContext.refreshOne ctx) =
      l2.foldl AppsContext.refreshOne
        ((l1.foldl AppsContext.refreshOne ctx).refreshOne rp) := by
    rw [List.foldl_append, List.foldl_cons]
  constructor
  · intro hass
    have hassA : pid ∈ (l1.foldl AppsContext.refreshOne ctx).processes_assigned_to_apps :=
      (foldl_refreshOne_assigned_not_mem l1 ctx h1).mpr hass
    have hstep : (l1.foldl AppsContext.refreshOne ctx).refreshOne rp =
        l1.foldl AppsContext.refreshOne ctx :=
      refreshOne_skip _ rp (by rw [hpid]; exact hA) (by rw [hpid]; exact hassA)
    constructor
    · show alookup (((l1 ++ rp :: l2).foldl AppsContext.refreshOne ctx).markDead
        ((l1 ++ rp :: l2).map (fun q => q.data.pid))).processes pid = none
      rw [markDead_processes_lookup, hup, hstep,
        foldl_refreshOne_processes_not_mem l2 _ h2, hA]
      rfl
    · intro k app' hl hm
      have hl2 : alookup ((l1 ++ rp :: l2).foldl AppsContext.refreshOne ctx).apps k =
          some app' := hl
      rw [hup, hstep] at hl2
      obtain ⟨app1, hl1, hm1⟩ := foldl_refreshOne_apps_mem_rev l2 _ hassA hl2 hm
      exact foldl_refreshOne_apps_mem_rev l1 ctx hass hl1 hm1
  · intro hnass
    have hnassA : pid ∉ (l1.foldl AppsContext.refreshOne ctx).processes_assigned_to_apps :=
      fun hx => hnass ((foldl_refreshOne_assigned_not_mem l1 ctx h1).mp hx)
    have hstep : (l1.foldl AppsContext.refreshOne ctx).refreshOne rp =
        (l1.foldl AppsContext.refreshOne ctx).newStep rp :=
      refreshOne_new _ rp (by rw [hpid]; exact hA) (by rw [hpid]; exact hnassA)
    have hmem0 : pid ∈ (l1 ++ rp :: l2).map (fun q => q.data.pid) := by
      rw [List.map_append]
      refine List.mem_append_right _ ?_
      simp [hpid]
    have hmemu : ((l1 ++ rp :: l2).map (fun q => q.data.pid)).contains rp.data.pid = true := by
      rw [hpid]
      exact (contains_true_iff_mem _ _).mpr hmem0
    have hsomeA := foldl_refreshOne_apps_isSome l1 ctx (rp.data.cgroup.getD "")
    cases h0 : alookup ctx.apps (rp.data.cgroup.getD "") with
    | some app0 =>
        have hs : (alookup (l1.foldl AppsContext.refreshOne ctx).apps
            (rp.data.cgroup.getD "")).isSome = true := by
          rw [hsomeA, h0]
          rfl
        obtain ⟨appA, happA⟩ := Option.isSome_iff_exists.mp hs
        obtain ⟨hq, hassB, happB⟩ := newStep_effects (l1.foldl AppsContext.refreshOne ctx)
          rp happA
        have hq' : alookup ((l1.foldl AppsContext.refreshOne ctx).newStep rp).processes pid =
            some { rp with icon := appA.icon } := by
          rw [← hpid]
          exact hq
        refine ⟨{ rp with icon := appA.icon }, ?_, rfl, ?_, ?_⟩
        · show alookup (((l1 ++ rp :: l2).foldl AppsContext.refreshOne ctx).markDead
            ((l1 ++ rp :: l2).map (fun q => q.data.pid))).processes pid = _
          rw [markDead_processes_lookup, hup, hstep,
            foldl_refreshOne_processes_not_mem l2 _ h2, hq', Option.map_some']
          split
          · rfl
          · rename_i hcond
            exact absurd hmemu hcond
        · intro app0' happ0'
          have hassB' : pid ∈ ((l1.foldl AppsContext.refreshOne ctx).newStep
              rp).processes_assigned_to_apps := by
            rw [← hpid]
            exact hassB
          constructor
          · show pid ∈ (((l1 ++ rp :: l2).foldl AppsContext.refreshOne ctx).markDead
              ((l1 ++ rp :: l2).map (fun q => q.data.pid))).processes_assigned_to_apps
            rw [hup, hstep]
            exact foldl_refreshOne_assigned_mono l2 _ hassB'
          · have hmB : pid ∈ ({ appA with processes := appA.processes ++ [rp.data.pid] } :
                App).processes := by
              simp [hpid]
            obtain ⟨app', hl', hm'⟩ := foldl_refreshOne_apps_mem_fwd l2 _ happB hmB
            refine ⟨app', ?_, hm'⟩
            show alookup (((l1 ++ rp :: l2).foldl AppsContext.refreshOne ctx).markDead
              ((l1 ++ rp :: l2).map (fun q => q.data.pid))).apps _ = some app'
            rw [hup, hstep]
            exact hl'
        · intro hnone
          exact Option.noConfusion hnone
    | none =>
        have hnoneA : alookup (l1.foldl AppsContext.refreshOne ctx).apps
            (rp.data.cgroup.getD "") = none := by
          cases hx : alookup (l1.foldl AppsContext.refreshOne ctx).apps
              (rp.data.cgroup.getD "") with
          | none => rfl
          | some a =>
              have hh := hsomeA
              rw [hx, h0] at hh
              simp at hh
        obtain ⟨hq, -, -⟩ := newStep_effects_none (l1.foldl AppsContext.refreshOne ctx)
          rp hnoneA
        have hq' : alookup ((l1.foldl AppsContext.refreshOne ctx).newStep rp).processes pid =
            some rp := by
          rw [← hpid]
          exact hq
        refine ⟨rp, ?_, rfl, ?_, fun _ => rfl⟩
        · show alookup (((l1 ++ rp :: l2).foldl AppsContext.refreshOne ctx).markDead
            ((l1 ++ rp :: l2).map (fun q => q.data.pid))).processes pid = _
          rw [markDead_processes_lookup, hup, hstep,
            foldl_refreshOne_processes_not_mem l2 _ h2, hq', Option.map_some']
          split
          · rfl
          · rename_i hcond
            exact absurd hmemu hcond
        · intro app0' happ0'
          exact Option.noConfusion happ0'

/-- C2 witness: both branches of the amended statement at concrete states:
the spuriously assigned pid 5 is skipped, and a genuinely new pid 5 in a
state with no apps is inserted unchanged. -/
theorem C2_witness :
    ((ctxAssigned5.refresh (Except.ok [sampleProcess 5])).1.get_process 5 = none) ∧
    (∃ q, (ctxLone.refresh (Except.ok [sampleProcess 1, sampleProcess 5])).1.get_process 5 =
      some q ∧ q.data = (sampleProcess 5).data) := by
  constructor
  · exact ((C2_refresh_new_pid ctxAssigned5 [] [] (sampleProcess 5) 5 rfl rfl
      (by simp) (by simp)).1 (by decide)).1
  · obtain ⟨q, hq, hdata, -, -⟩ := (C2_refresh_new_pid ctxLone [sampleProcess 1] []
      (sampleProcess 5) 5 rfl rfl (by decide) (by simp)).2 (by decide)
    exact ⟨q, hq, hdata⟩

/-- C3: the referential invariant holds after new() for apps scanned with
empty membership lists, is preserved by every successful refresh, and an
already assigned pid never joins an app it was not in before the
refresh. -/
theorem C3_assignment_invariant :
    (∀ (appsList : List App) (pl : List Process), (∀ a ∈ appsList, a.processes = []) →
      Inv (AppsContext.new appsList pl)) ∧
    (∀ (ctx : AppsContext) (fresh : List Process), Inv ctx →
      Inv ((ctx.refresh (Except.ok fresh)).1)) ∧
    (∀ (ctx : AppsContext) (fresh : List Process) (pid : Int) (k : String) (app' : App),
      pid ∈ ctx.processes_assigned_to_apps →
      alookup ((ctx.refresh (Except.ok fresh)).1).apps k = some app' →
      pid ∈ app'.processes →
      ∃ app, alookup ctx.apps k = some app ∧ pid ∈ app.processes) := by
  refine ⟨new_Inv, ?_, ?_⟩
  · intro ctx fresh h
    exact markDead_Inv _ _ (foldl_refreshOne_Inv fresh ctx h)
  · intro ctx fresh pid k app' hass hl hm
    exact foldl_refreshOne_apps_mem_rev fresh ctx hass hl hm

/-- C3 witness: the invariant at concrete inputs, and the one-shot
assignment applied to the claimed state. -/
theorem C3_witness :
    Inv (AppsContext.new [appEmpty] [sampleProcess 1]) ∧
    Inv ((ctxClaimed.refresh (Except.ok [sampleProcess 1])).1) ∧
    ∃ app, alookup ctxClaimed.apps "editor" = some app ∧ (1 : Int) ∈ app.processes := by
  refine ⟨C3_assignment_invariant.1 [appEmpty] [sampleProcess 1] ?_,
    C3_assignment_invariant.2.1 ctxClaimed [sampleProcess 1] ?_,
    C3_assignment_invariant.2.2 ctxClaimed [sampleProcess 1] 1 "editor" editorApp
      ?_ ?_ ?_⟩
  · intro a ha
    simp only [List.mem_singleton] at ha
    subst ha
    rfl
  · intro kv hkv q hq
    simp only [ctxClaimed, List.mem_singleton] at hkv
    subst hkv
    simp only [editorApp, List.mem_singleton] at hq
    subst hq
    exact ⟨rfl, by decide⟩
  · decide
  · rfl
  · decide

end Resources
